import Mathlib

/-!
Verification development for the pipeline auto-scheduler subsystem exercised
by the SimpleBlur generator (simple_blur_generator.cpp) and the lesson-21
AutoScheduled generator (lesson_21_auto_scheduler_generate.cpp).

The repository fragment contains the two generator sources; the scheduler
internals (region analyzer, cost model, schedule search, estimate checks)
are consumed through the `auto_schedule_outputs` interface and are modelled
here from the specification, faithful to its words.  The generator code
itself (pipeline definitions, the `schedule()` methods) is embedded directly
from the source.
-/

namespace Halide

/-- A closed integer interval `[lo, hi]` along one dimension of a `Region`. -/
structure Iv where
  lo : Int
  hi : Int
  deriving Repr, DecidableEq

/-- A `Region` is one interval per dimension (the per-dimension
(min, extent) pairs of the spec, stored as closed `[min, max]`). -/
abbrev Region := List Iv

/-- A concrete index point into a stage's domain. -/
abbrev Point := List Int

/-- Membership of a concrete index point in a `Region`: same dimensionality
and the coordinate lies inside the interval in every dimension. -/
def memRegion : Point → Region → Bool
  | [], [] => true
  | v :: p, iv :: r => (decide (iv.lo ≤ v) && decide (v ≤ iv.hi)) && memRegion p r
  | _, _ => false

/-- The concrete index accessed by a reference site with constant offsets
`off` when the consumer's loop variables sit at point `p` (e.g. the site
`blur_x(x, y+2, _)` has offsets `[0, 2, 0]`). -/
def accessPoint (p : Point) (off : List Int) : Point :=
  List.zipWith (· + ·) p off

/-- Substituting a requested region's bounds into an affine access with
constant offsets shifts every dimension's interval by the offset. -/
def shiftRegion (out : Region) (off : List Int) : Region :=
  List.zipWith (fun iv o => Iv.mk (iv.lo + o) (iv.hi + o)) out off

/-- Interval-hull (dimension-wise union bound) of two regions. -/
def hull (a b : Region) : Region :=
  List.zipWith (fun i j => Iv.mk (min i.lo j.lo) (max i.hi j.hi)) a b

/-- Modelled from the spec: the Region Analyzer's `required_region`
operation (the scheduler's bounds inference is not part of the source
fragment; only its caller `auto_schedule_outputs` appears).  Given the
requested output `Region` of a stage and the list of reference sites into
one producer — each site a vector of constant offsets, as in
`output(x,y,_) = (blur_x(x,y,_)+blur_x(x,y+1,_)+blur_x(x,y+2,_))/3` —
it returns the union (interval hull) over all sites of the interval
obtained by substituting the requested region's bounds into the access
expression. -/
def required_region (sites : List (List Int)) (out : Region) : Region :=
  match sites with
  | [] => []
  | s :: rest => rest.foldl (fun acc t => hull acc (shiftRegion out t)) (shiftRegion out s)

theorem memRegion_shift {p : Point} {out : Region} (off : List Int)
    (hp : memRegion p out = true) (hlen : off.length = out.length) :
    memRegion (accessPoint p off) (shiftRegion out off) = true := by
  induction p generalizing out off with
  | nil =>
    cases out with
    | nil => cases off with
      | nil => rfl
      | cons o os => simp at hlen
    | cons iv r => simp [memRegion] at hp
  | cons v ptl ih =>
    cases out with
    | nil => simp [memRegion] at hp
    | cons iv r =>
      cases off with
      | nil => simp at hlen
      | cons o os =>
        simp only [memRegion, Bool.and_eq_true, decide_eq_true_eq] at hp
        simp only [accessPoint, shiftRegion, List.zipWith, memRegion,
          Bool.and_eq_true, decide_eq_true_eq]
        refine ⟨⟨by omega, by omega⟩, ?_⟩
        exact ih os hp.2 (by simpa using hlen)

theorem hull_length (a b : Region) : (hull a b).length = min a.length b.length := by
  simp [hull]

theorem shiftRegion_length (out : Region) (off : List Int) :
    (shiftRegion out off).length = min out.length off.length := by
  simp [shiftRegion]

theorem memRegion_hull_left {p : Point} {a : Region} (b : Region)
    (hp : memRegion p a = true) (hlen : a.length = b.length) :
    memRegion p (hull a b) = true := by
  induction p generalizing a b with
  | nil =>
    cases a with
    | nil => cases b with
      | nil => rfl
      | cons j bs => simp at hlen
    | cons i as => simp [memRegion] at hp
  | cons v ptl ih =>
    cases a with
    | nil => simp [memRegion] at hp
    | cons i as =>
      cases b with
      | nil => simp at hlen
      | cons j bs =>
        simp only [memRegion, Bool.and_eq_true, decide_eq_true_eq] at hp
        simp only [hull, List.zipWith, memRegion, Bool.and_eq_true, decide_eq_true_eq]
        refine ⟨⟨?_, ?_⟩, ih bs hp.2 (by simpa using hlen)⟩
        · exact le_trans (min_le_left _ _) hp.1.1
        · exact le_trans hp.1.2 (le_max_left _ _)

theorem memRegion_hull_right {p : Point} {b : Region} (a : Region)
    (hp : memRegion p b = true) (hlen : a.length = b.length) :
    memRegion p (hull a b) = true := by
  induction p generalizing a b with
  | nil =>
    cases b with
    | nil => cases a with
      | nil => rfl
      | cons j as => simp at hlen
    | cons i bs => simp [memRegion] at hp
  | cons v ptl ih =>
    cases b with
    | nil => simp [memRegion] at hp
    | cons i bs =>
      cases a with
      | nil => simp at hlen
      | cons j as =>
        simp only [memRegion, Bool.and_eq_true, decide_eq_true_eq] at hp
        simp only [hull, List.zipWith, memRegion, Bool.and_eq_true, decide_eq_true_eq]
        refine ⟨⟨?_, ?_⟩, ih as hp.2 (by simpa using hlen)⟩
        · exact le_trans (min_le_right _ _) hp.1.1
        · exact le_trans hp.1.2 (le_max_right _ _)

theorem memRegion_length {p : Point} {r : Region} (hp : memRegion p r = true) :
    p.length = r.length := by
  induction p generalizing r with
  | nil => cases r with
    | nil => rfl
    | cons iv rs => simp [memRegion] at hp
  | cons v ptl ih =>
    cases r with
    | nil => simp [memRegion] at hp
    | cons iv rs =>
      simp only [memRegion, Bool.and_eq_true] at hp
      simpa using ih hp.2

theorem memRegion_foldl_hull {q : Point} {init : Region} (ts : List (List Int))
    (out : Region)
    (hq : memRegion q init = true)
    (hinit : init.length = out.length)
    (hts : ∀ t ∈ ts, t.length = out.length) :
    memRegion q (ts.foldl (fun acc t => hull acc (shiftRegion out t)) init) = true := by
  induction ts generalizing init with
  | nil => exact hq
  | cons t rest ih =>
    have htlen : t.length = out.length := hts t (List.mem_cons_self t rest)
    have hsh : (shiftRegion out t).length = out.length := by
      rw [shiftRegion_length, htlen]; omega
    have hh : (hull init (shiftRegion out t)).length = out.length := by
      rw [hull_length, hinit, hsh]; omega
    refine @ih (hull init (shiftRegion out t)) ?_ hh ?_
    · exact memRegion_hull_left _ hq (by rw [hinit, hsh])
    · intro u hu; exact hts u (List.mem_cons_of_mem _ hu)

theorem memRegion_foldl_hull_of_mem {q : Point} (ts : List (List Int))
    (out : Region) (t : List Int)
    (hq : memRegion q (shiftRegion out t) = true) :
    ∀ init : Region, t ∈ ts → init.length = out.length →
    (∀ u ∈ ts, u.length = out.length) →
    memRegion q (ts.foldl (fun acc u => hull acc (shiftRegion out u)) init) = true := by
  induction ts with
  | nil => intro init ht _ _; cases ht
  | cons u rest ih =>
    intro init ht hinit hts
    have hulen : u.length = out.length := hts u (List.mem_cons_self u rest)
    have hsh : (shiftRegion out u).length = out.length := by
      rw [shiftRegion_length, hulen]; omega
    have hh : (hull init (shiftRegion out u)).length = out.length := by
      rw [hull_length, hinit, hsh]; omega
    rcases List.mem_cons.mp ht with rfl | ht'
    · exact memRegion_foldl_hull rest out
        (memRegion_hull_right _ hq (by rw [hinit, hsh])) hh
        (fun v hv => hts v (List.mem_cons_of_mem _ hv))
    · exact ih (hull init (shiftRegion out u)) ht' hh
        (fun v hv => hts v (List.mem_cons_of_mem _ hv))

/-- C1: Region soundness.  For every requested output region `out` of a
stage, every reference site `s` (offset vector) into a producer that occurs
in the stage's definition, and every concrete loop point `p` inside the
requested region, the concrete producer index actually accessed,
`accessPoint p s`, lies inside the `Region` computed by `required_region`
for that producer — the computed region is a superset of every access, so
under-estimation causing an out-of-bounds read is impossible. -/
theorem required_region_sound
    (sites : List (List Int)) (out : Region) (p : Point) (s : List Int)
    (hlen : ∀ t ∈ sites, t.length = out.length)
    (hs : s ∈ sites) (hp : memRegion p out = true) :
    memRegion (accessPoint p s) (required_region sites out) = true := by
  cases sites with
  | nil => cases hs
  | cons t rest =>
    have htlen : t.length = out.length := hlen t (List.mem_cons_self t rest)
    have hslen : s.length = out.length := hlen s hs
    have hsh : (shiftRegion out t).length = out.length := by
      rw [shiftRegion_length, htlen]; omega
    have hrest : ∀ u ∈ rest, u.length = out.length :=
      fun u hu => hlen u (List.mem_cons_of_mem _ hu)
    have hacc : memRegion (accessPoint p s) (shiftRegion out s) = true :=
      memRegion_shift s hp hslen
    rcases List.mem_cons.mp hs with rfl | hs'
    · exact memRegion_foldl_hull rest out hacc hsh hrest
    · exact memRegion_foldl_hull_of_mem rest out s hacc _ hs' hsh hrest

/-- Witness for C1 at the SimpleBlur pipeline: `output(x,y) =
(blur_x(x,y)+blur_x(x,y+1)+blur_x(x,y+2))/3` has reference sites
`[0,0],[0,1],[0,2]` into `blur_x`; with the estimated output region
`x ∈ [0,1535], y ∈ [0,2559]`, the loop point `(7, 2559)` reading through
site `(x, y+2)` accesses `blur_x(7, 2561)`, which lies in the computed
required region. -/
theorem required_region_sound_witness :
    memRegion (accessPoint [7, 2559] [0, 2])
      (required_region [[0, 0], [0, 1], [0, 2]]
        [Iv.mk 0 1535, Iv.mk 0 2559]) = true :=
  required_region_sound [[0, 0], [0, 1], [0, 2]]
    [Iv.mk 0 1535, Iv.mk 0 2559] [7, 2559] [0, 2]
    (by decide) (by decide) (by decide)

/-- A scheduling directive, as applied by the generators' `schedule()`
methods (`split`, `parallel`, `vectorize`, `store_at`, `compute_at`,
`compute_root`). -/
inductive Directive
  | split (v outer inner : String) (factor : Int)
  | parallelDim (v : String)
  | vectorizeDim (v : String) (factor : Int)
  | storeAt (consumer level : String)
  | computeAt (consumer level : String)
  | computeRoot
  deriving Repr, DecidableEq

/-- The machine-parameter triple of `auto_schedule_outputs(machine_params)`:
maximum parallelism, last-level cache size in KB, and `balance`, the ratio
between the cost of a last-level cache miss and the cost of arithmetic
(the spec's memory-cost ratio; `kBalance = 40` in lesson 21). -/
structure MachineParams where
  parallelism : Nat
  cache_size_kb : Nat
  balance : Nat
  deriving Repr, DecidableEq

/-- Modelled from the spec: bytes-moved cost with cache penalty.  Traffic
that fits in the last-level cache costs its byte count; traffic whose
working set exceeds `cache_size_kb` pays the miss ratio `balance`. -/
def memCost (bytes : Nat) (mp : MachineParams) : Nat :=
  if bytes ≤ mp.cache_size_kb * 1024 then bytes else bytes * mp.balance

/-- The Cost Model's result triple. -/
structure Cost where
  compute_cost : Nat
  memory_cost : Nat
  parallel_penalty : Nat
  deriving Repr, DecidableEq

/-- A stage of the dependency graph as seen by the scheduler: name,
consumer edges, any manually authored schedule directives, and the size
and access-pattern estimates the Cost Model needs (per-point arithmetic
ops, points per row, row count, stencil halo rows, number of consumer
reference sites, the row-tile size chosen for its consumer, bytes per
point). -/
structure GStage where
  name : String
  consumers : List String
  manualSched : List Directive
  ops : Nat
  rowPts : Nat
  rows : Nat
  halo : Nat
  useSites : Nat
  tileRows : Nat
  bytesPerPoint : Nat
  deriving Repr, DecidableEq

/-- Compute/storage granularity of a stage in a Schedule: at the root of
the pipeline, inlined into each use, or at a loop level of a consumer. -/
inductive Loc
  | root
  | inlined
  | atConsumer (c : String)
  deriving Repr, DecidableEq

/-- Working-set bytes of one consumer row-tile of a stage: the tile's rows
plus the stencil halo, times points per row, times bytes per point. -/
def perTileMemBytes (s : GStage) : Nat :=
  (s.tileRows + s.halo) * s.rowPts * s.bytesPerPoint

/-- Per-tile memory cost of keeping a stage's storage at its consumer's
row-tile level. -/
def perTileMemCost (s : GStage) (mp : MachineParams) : Nat :=
  memCost (perTileMemBytes s) mp

/-- Modelled from the spec: the Cost Model's `evaluate` operation (the
cost model itself is not part of the source fragment).  Compute cost is
arithmetic-op count scaled by the points actually computed at the chosen
granularity: each point once at root; per consumer tile including the
recomputed halo overlap when computed at a consumer's loop; once per
reference site when inlined.  Memory cost is bytes moved through
`memCost`, with the whole region as working set at root, one tile's
working set per tile at a consumer's loop, and no storage when inlined. -/
def evaluate (s : GStage) (l : Loc) (mp : MachineParams) : Cost :=
  match l with
  | .root =>
      { compute_cost := s.ops * (s.rows * s.rowPts)
        memory_cost := memCost (s.rows * s.rowPts * s.bytesPerPoint) mp
        parallel_penalty := 0 }
  | .atConsumer _ =>
      { compute_cost := s.ops * ((s.rows / s.tileRows) * ((s.tileRows + s.halo) * s.rowPts))
        memory_cost := (s.rows / s.tileRows) * perTileMemCost s mp
        parallel_penalty := 0 }
  | .inlined =>
      { compute_cost := s.ops * (s.rows * s.rowPts) * s.useSites
        memory_cost := 0
        parallel_penalty := 0 }

/-- C5: the Cost Model is strictly monotonic.  First, for a stage with
multiple consumer reference sites, a smaller storage granularity means
more recomputation and strictly more `compute_cost`: computing at a
consumer's row-tile loop (recomputing the stencil halo per tile) costs
strictly more than computing once at root, and inlining into every
reference site costs strictly more still, all else equal.  Second, once a
tile's working set exceeds the cache capacity `cache_size_kb` from
`MachineParams`, increasing the tile size strictly increases the per-tile
`memory_cost`. -/
theorem evaluate_monotonic (s : GStage) (mp : MachineParams) (c : String) (t2 : Nat)
    (hops : 0 < s.ops) (hrow : 0 < s.rowPts) (hrows : 0 < s.rows)
    (hhalo : 0 < s.halo) (hht : s.halo < s.tileRows)
    (hdvd : s.tileRows ∣ s.rows) (hsites : 2 ≤ s.useSites)
    (hbpp : 0 < s.bytesPerPoint) (hbal : 0 < mp.balance) (ht : s.tileRows < t2)
    (hcache : mp.cache_size_kb * 1024 < perTileMemBytes s) :
    (evaluate s Loc.root mp).compute_cost
      < (evaluate s (Loc.atConsumer c) mp).compute_cost
    ∧ (evaluate s (Loc.atConsumer c) mp).compute_cost
      < (evaluate s Loc.inlined mp).compute_cost
    ∧ perTileMemCost s mp < perTileMemCost { s with tileRows := t2 } mp := by
  obtain ⟨k, hk⟩ := hdvd
  have htr : 0 < s.tileRows := lt_trans hhalo hht
  have hkpos : 0 < k := by
    rcases Nat.eq_zero_or_pos k with rfl | h
    · rw [Nat.mul_zero] at hk; omega
    · exact h
  have hdivk : s.rows / s.tileRows = k := by
    rw [hk, Nat.mul_div_cancel_left _ htr]
  refine ⟨?_, ?_, ?_⟩
  · simp only [evaluate]
    rw [hdivk, hk]
    have h1 : s.tileRows * k * s.rowPts < k * ((s.tileRows + s.halo) * s.rowPts) := by
      nlinarith [Nat.mul_pos (Nat.mul_pos hkpos hhalo) hrow]
    exact mul_lt_mul_of_pos_left h1 hops
  · simp only [evaluate]
    rw [hdivk, hk]
    have h2 : s.tileRows + s.halo < s.tileRows * s.useSites := by
      have h3 : s.tileRows * 2 ≤ s.tileRows * s.useSites :=
        Nat.mul_le_mul_left _ hsites
      omega
    have h1 : k * ((s.tileRows + s.halo) * s.rowPts)
        < s.tileRows * k * s.rowPts * s.useSites := by
      calc k * ((s.tileRows + s.halo) * s.rowPts)
          = (s.tileRows + s.halo) * (k * s.rowPts) := by ring
        _ < (s.tileRows * s.useSites) * (k * s.rowPts) :=
          mul_lt_mul_of_pos_right h2 (Nat.mul_pos hkpos hrow)
        _ = s.tileRows * k * s.rowPts * s.useSites := by ring
    calc s.ops * (k * ((s.tileRows + s.halo) * s.rowPts))
        < s.ops * (s.tileRows * k * s.rowPts * s.useSites) :=
        mul_lt_mul_of_pos_left h1 hops
      _ = s.ops * (s.tileRows * k * s.rowPts) * s.useSites := by ring
  · have hbytes : perTileMemBytes s < perTileMemBytes { s with tileRows := t2 } := by
      simp only [perTileMemBytes]
      have h5 : s.tileRows + s.halo < t2 + s.halo := by omega
      exact mul_lt_mul_of_pos_right (mul_lt_mul_of_pos_right h5 hrow) hbpp
    have hcache2 : ¬ perTileMemBytes s ≤ mp.cache_size_kb * 1024 := by omega
    have hcache3 : ¬ perTileMemBytes { s with tileRows := t2 } ≤ mp.cache_size_kb * 1024 := by
      omega
    simp only [perTileMemCost, memCost, hcache2, hcache3, if_false]
    exact mul_lt_mul_of_pos_right hbytes hbal

/-- Witness for C5 at a concrete stencil stage (3 ops per point, 4 points
per row, 8 rows, halo 2, 3 reference sites, tile of 4 rows, 4 bytes per
point) and a machine with zero cache, miss ratio 40, growing the tile
from 4 to 6 rows. -/
theorem evaluate_monotonic_witness :
    (evaluate ⟨"blur_x", ["output"], [], 3, 4, 8, 2, 3, 4, 4⟩ Loc.root
        ⟨4, 0, 40⟩).compute_cost
      < (evaluate ⟨"blur_x", ["output"], [], 3, 4, 8, 2, 3, 4, 4⟩
        (Loc.atConsumer "output") ⟨4, 0, 40⟩).compute_cost
    ∧ (evaluate ⟨"blur_x", ["output"], [], 3, 4, 8, 2, 3, 4, 4⟩
        (Loc.atConsumer "output") ⟨4, 0, 40⟩).compute_cost
      < (evaluate ⟨"blur_x", ["output"], [], 3, 4, 8, 2, 3, 4, 4⟩ Loc.inlined
        ⟨4, 0, 40⟩).compute_cost
    ∧ perTileMemCost ⟨"blur_x", ["output"], [], 3, 4, 8, 2, 3, 4, 4⟩ ⟨4, 0, 40⟩
      < perTileMemCost
        { (⟨"blur_x", ["output"], [], 3, 4, 8, 2, 3, 4, 4⟩ : GStage) with tileRows := 6 }
        ⟨4, 0, 40⟩ :=
  evaluate_monotonic ⟨"blur_x", ["output"], [], 3, 4, 8, 2, 3, 4, 4⟩ ⟨4, 0, 40⟩
    "output" 6 (by decide) (by decide) (by decide) (by decide) (by decide)
    (by decide) (by decide) (by decide) (by decide) (by decide) (by decide)

/-- Scalar ranking used by the search: the Cost Model triple collapsed to
one number. -/
def locCost (mp : MachineParams) (s : GStage) (l : Loc) : Nat :=
  (evaluate s l mp).compute_cost + (evaluate s l mp).memory_cost
    + (evaluate s l mp).parallel_penalty

/-- First-preferred minimizer of `f` over `a :: l`: ties keep the earlier
(coarser-grained, more memory-reuse-friendly) candidate, the spec's
tie-break rule. -/
def argminBy {α : Type} (f : α → Nat) (a : α) (l : List α) : α :=
  l.foldl (fun best x => if f x < f best then x else best) a

theorem argminBy_mem {α : Type} (f : α → Nat) (a : α) (l : List α) :
    argminBy f a l ∈ a :: l := by
  induction l generalizing a with
  | nil => simp [argminBy]
  | cons x xs ih =>
    have hstep : argminBy f a (x :: xs) = argminBy f (if f x < f a then x else a) xs := rfl
    rw [hstep]
    rcases List.mem_cons.mp (ih (if f x < f a then x else a)) with h1 | h1
    · rw [h1]
      split
      · exact List.mem_cons_of_mem _ (List.mem_cons_self _ _)
      · exact List.mem_cons_self _ _
    · exact List.mem_cons_of_mem _ (List.mem_cons_of_mem _ h1)

/-- Modelled from the spec: the alternative granularities the Schedule
Search re-evaluates for a stage besides `root` — inlining, and computing
at a consumer's loop level when that level encloses every use of the
stage (with a single consumer, that consumer's row-tile loop). -/
def candidateLocs (s : GStage) : List Loc :=
  match s.consumers with
  | [c] => [Loc.atConsumer c, Loc.inlined]
  | _ => [Loc.inlined]

/-- Modelled from the spec: the Schedule Search's local greedy choice of
compute/storage granularity for one stage — the minimum-`locCost`
alternative among `root` and `candidateLocs`, ties preferring the
coarser-grained option. -/
def chooseLoc (mp : MachineParams) (s : GStage) : Loc :=
  argminBy (locCost mp s) Loc.root (candidateLocs s)

/-- The whole pipeline scheduled: stages are processed in the graph's
topological order (consumers before producers) and each receives its
greedy granularity choice. -/
def schedulePipeline (mp : MachineParams) (g : List GStage) : List (String × Loc) :=
  g.map (fun s => (s.name, chooseLoc mp s))

/-- Stage `s` computed at `l` is available at every use by consumer `C`:
it is computed at the pipeline root (before any consumer runs), inlined
exactly at each use site, or computed inside the loop nest of `C` itself
(which requires `C` to be the stage's only consumer). -/
def computedBeforeUse (s : GStage) (l : Loc) (C : String) : Prop :=
  l = Loc.root ∨ l = Loc.inlined ∨ (l = Loc.atConsumer C ∧ s.consumers = [C])

/-- C4: granularity ordering invariant.  In the Schedule produced by the
search, every stage `s` with a consumer `C` is assigned a compute
granularity location that is at or below `C`'s compute location in
traversal order — at root (computed before `C` starts), inlined at the
use point, or inside `C`'s own loop nest — so no stage is computed
topologically after the point where its consumer uses it. -/
theorem schedule_granularity_ordering (mp : MachineParams) (g : List GStage)
    (s : GStage) (C : String) (hs : s ∈ g) (hC : C ∈ s.consumers) :
    ∃ l, (s.name, l) ∈ schedulePipeline mp g ∧ computedBeforeUse s l C := by
  refine ⟨chooseLoc mp s, List.mem_map_of_mem _ hs, ?_⟩
  have hmem : chooseLoc mp s ∈ Loc.root :: candidateLocs s :=
    argminBy_mem (locCost mp s) Loc.root (candidateLocs s)
  rcases hck : s.consumers with _ | ⟨c, _ | ⟨d, rest⟩⟩
  · rw [hck] at hC
    cases hC
  · rw [hck] at hC
    have hCc : C = c := by simpa using hC
    subst hCc
    have hcand : candidateLocs s = [Loc.atConsumer C, Loc.inlined] := by
      simp [candidateLocs, hck]
    rw [hcand] at hmem
    simp only [List.mem_cons, List.not_mem_nil, or_false] at hmem
    rcases hmem with h | h | h
    · exact Or.inl h
    · exact Or.inr (Or.inr ⟨h, hck⟩)
    · exact Or.inr (Or.inl h)
  · have hcand : candidateLocs s = [Loc.inlined] := by
      simp [candidateLocs, hck]
    rw [hcand] at hmem
    simp only [List.mem_cons, List.not_mem_nil, or_false] at hmem
    rcases hmem with h | h
    · exact Or.inl h
    · exact Or.inr (Or.inl h)

/-- The `blur_x` stage of the SimpleBlur pipeline as the scheduler sees
it: `blur_x(x,y,_) = (in(x,y,_)+in(x+1,y,_)+in(x+2,y,_))/3` consumed only
by `output` through a 3-row stencil (3 reference sites, 2 halo rows),
with estimated extents `W×H×C` and 4-byte (float32) elements; `f` is the
output row-tile size under consideration. -/
def blurXStage (W H C f : Nat) : GStage :=
  { name := "blur_x", consumers := ["output"], manualSched := [], ops := 3,
    rowPts := W * C, rows := H, halo := 2, useSites := 3, tileRows := f,
    bytesPerPoint := 4 }

/-- The `output` stage of the SimpleBlur pipeline (no consumers). -/
def outputStage (W H C f : Nat) : GStage :=
  { name := "output", consumers := [], manualSched := [], ops := 3,
    rowPts := W * C, rows := H, halo := 0, useSites := 0, tileRows := f,
    bytesPerPoint := 4 }

/-- The 2-stage blur dependency graph in topological order (consumers
before producers). -/
def blurGraph (W H C f : Nat) : List GStage :=
  [outputStage W H C f, blurXStage W H C f]

/-- Witness for C4 at the blur graph with the lesson's machine parameters:
`blur_x` has consumer `output`, and the search's assignment for it is
compatible with that use. -/
theorem schedule_granularity_ordering_witness :
    ∃ l, ((blurXStage 1536 2560 4 32).name, l)
        ∈ schedulePipeline ⟨32, 16384, 40⟩ (blurGraph 1536 2560 4 32)
      ∧ computedBeforeUse (blurXStage 1536 2560 4 32) l "output" :=
  schedule_granularity_ordering ⟨32, 16384, 40⟩ (blurGraph 1536 2560 4 32)
    (blurXStage 1536 2560 4 32) "output" (by decide) (by decide)

/-- Modelled from the spec: the banded parallel-efficiency penalty.
Task counts below `parallelism` are heavily penalized (idle cores);
task counts below twice `parallelism` pay a smaller load-balance
penalty; beyond that the band is free. -/
def taskPenalty (tasks par : Nat) : Nat :=
  if tasks < par then (par - tasks) * 1000000
  else if tasks < 2 * par then (2 * par - tasks) * 100000
  else 0

/-- Modelled from the spec: the cost of tiling `output`'s rows by `f` —
the Cost Model's score for keeping `blur_x` at the row-tile granularity
that tiling induces, plus the parallel-efficiency penalty for the
resulting `H / f` parallel row-tile tasks. -/
def outputTileCost (W H C : Nat) (mp : MachineParams) (f : Nat) : Nat :=
  locCost mp (blurXStage W H C f) (Loc.atConsumer "output")
    + taskPenalty (H / f) mp.parallelism

/-- The row-tile sizes the search considers for `output`'s split. -/
def tileFactorCandidates : List Nat := [8, 16, 32, 64, 128]

/-- Modelled from the spec: the search's choice of `output`'s row-tile
split factor — the minimum-cost candidate, ties preferring the smaller
(earlier) factor. -/
def pickTileFactor (W H C : Nat) (mp : MachineParams) : Nat :=
  argminBy (outputTileCost W H C mp) 8 [16, 32, 64, 128]

theorem pickTileFactor_mem (W H C : Nat) (mp : MachineParams) :
    pickTileFactor W H C mp ∈ tileFactorCandidates :=
  argminBy_mem (outputTileCost W H C mp) 8 [16, 32, 64, 128]

theorem pickTileFactor_pos (W H C : Nat) (mp : MachineParams) :
    0 < pickTileFactor W H C mp := by
  have hall : ∀ x ∈ tileFactorCandidates, 0 < x := by decide
  exact hall _ (pickTileFactor_mem W H C mp)

/-- The Schedule produced for the SimpleBlur pipeline: the split factor of
`output`'s outer `y` loop, the row-tile extent of the inner `y` loop that
bounds `blur_x`'s storage, whether the outer dimension is marked
parallel, and `blur_x`'s compute granularity location. -/
structure BlurSchedule where
  splitFactor : Nat
  rowTileSize : Nat
  parallelOuter : Bool
  blurXLoc : Loc
  deriving Repr, DecidableEq

/-- Modelled from the spec: the auto-scheduler run on the SimpleBlur
pipeline with estimated extents `W×H×C`.  It picks `output`'s row-tile
split factor by cost, marks the outer dimension parallel when the task
count reaches the machine's parallelism, and places `blur_x` by the
greedy granularity choice; the row tile bounding `blur_x`'s storage is
the inner loop extent produced by the split. -/
def autoScheduleBlur (W H C : Nat) (mp : MachineParams) : BlurSchedule :=
  let f := pickTileFactor W H C mp
  { splitFactor := f
    rowTileSize := f
    parallelOuter := decide (mp.parallelism ≤ H / f)
    blurXLoc := chooseLoc mp (blurXStage W H C f) }

/-- Is a compute location at or below `output`'s row-tile loop level?
Root is above it; a loop level of `output` (the row-tile loop) or
inlining into `output`'s loop body is at or below it. -/
def atOrBelowRowTile : Loc → Bool
  | Loc.root => false
  | Loc.inlined => true
  | Loc.atConsumer c => c == "output"

/-- C8: the concrete 2-stage blur scenario.  With input estimate
1536×2560×4 and MachineParams(32, 16384, 40), the auto-scheduler computes
`blur_x` at `output`'s row-tile loop level — at or below the row tile, in
particular not at root — marks `output`'s outer dimension parallel, and
the split factor divides evenly into the row-tile size bounding
`blur_x`'s storage. -/
theorem blur_scenario :
    (autoScheduleBlur 1536 2560 4 ⟨32, 16384, 40⟩).blurXLoc = Loc.atConsumer "output"
    ∧ atOrBelowRowTile (autoScheduleBlur 1536 2560 4 ⟨32, 16384, 40⟩).blurXLoc = true
    ∧ (autoScheduleBlur 1536 2560 4 ⟨32, 16384, 40⟩).blurXLoc ≠ Loc.root
    ∧ (autoScheduleBlur 1536 2560 4 ⟨32, 16384, 40⟩).parallelOuter = true
    ∧ (autoScheduleBlur 1536 2560 4 ⟨32, 16384, 40⟩).splitFactor
        ∣ (autoScheduleBlur 1536 2560 4 ⟨32, 16384, 40⟩).rowTileSize := by
  decide

/-- A pipeline Parameter or output declaration with its per-dimension
bounds estimates; `none` in a slot means no Estimate was supplied for
that dimension (a scalar parameter is a single slot). -/
structure ParamDecl where
  name : String
  dimEstimates : List (Option (Int × Int))
  deriving Repr, DecidableEq

/-- The fatal error taxonomy of the scheduler. -/
inductive SchedError
  | partiallyScheduledPipeline (stage : String)
  | missingEstimate (param : String) (dim : Nat)
  deriving Repr, DecidableEq

/-- The pipeline as handed to `auto_schedule_outputs`: its stages, its
Parameter/output declarations with estimates, and the schedule applied so
far by the auto-scheduler (empty before the call). -/
structure Pipeline where
  stages : List GStage
  params : List ParamDecl
  applied : List (String × Loc)
  deriving Repr, DecidableEq

/-- Index of the first dimension lacking an Estimate, if any. -/
def firstMissingDim : List (Option (Int × Int)) → Option Nat
  | [] => none
  | none :: _ => some 0
  | some _ :: rest => (firstMissingDim rest).map (· + 1)

/-- First Parameter/output with a dimension lacking an Estimate, together
with that dimension's index. -/
def findMissingEstimate : List ParamDecl → Option (String × Nat)
  | [] => none
  | p :: rest =>
    match firstMissingDim p.dimEstimates with
    | some d => some (p.name, d)
    | none => findMissingEstimate rest

/-- Modelled from the spec: the `auto_schedule_outputs` entry point (its
implementation is not part of the source fragment; the tutorials only
call it).  It refuses a partially-scheduled pipeline (any stage with a
manually authored schedule) without mutating anything, refuses a pipeline
with a missing Estimate naming the parameter and dimension, and otherwise
applies the searched schedule to the pipeline. -/
def auto_schedule_outputs (p : Pipeline) (mp : MachineParams) :
    Pipeline × Option SchedError :=
  match p.stages.find? (fun s => !s.manualSched.isEmpty) with
  | some s => (p, some (SchedError.partiallyScheduledPipeline s.name))
  | none =>
    match findMissingEstimate p.params with
    | some nd => (p, some (SchedError.missingEstimate nd.1 nd.2))
    | none => ({ p with applied := schedulePipeline mp p.stages }, none)

/-- C2: if any stage of the pipeline already carries a manually authored
schedule when auto-scheduling begins, `auto_schedule_outputs` reports
`PartiallyScheduledPipelineError` naming one such stage and returns the
pipeline completely unchanged — no partial merge. -/
theorem partial_schedule_error (p : Pipeline) (mp : MachineParams)
    (h : ∃ s ∈ p.stages, s.manualSched ≠ []) :
    (auto_schedule_outputs p mp).1 = p
    ∧ ∃ t ∈ p.stages, t.manualSched ≠ []
        ∧ (auto_schedule_outputs p mp).2
          = some (SchedError.partiallyScheduledPipeline t.name) := by
  obtain ⟨s, hs, hman⟩ := h
  have hsome : (p.stages.find? (fun s => !s.manualSched.isEmpty)).isSome := by
    rw [List.find?_isSome]
    exact ⟨s, hs, by simpa using hman⟩
  obtain ⟨t, hfind⟩ := Option.isSome_iff_exists.mp hsome
  have htmem : t ∈ p.stages := List.mem_of_find?_eq_some hfind
  have htpred := List.find?_some hfind
  refine ⟨?_, t, htmem, by simpa using htpred, ?_⟩
  · simp [auto_schedule_outputs, hfind]
  · simp [auto_schedule_outputs, hfind]

/-- Witness for C2: a one-stage pipeline whose stage was manually given
`compute_root` is rejected unchanged. -/
theorem partial_schedule_error_witness :
    (auto_schedule_outputs
        ⟨[⟨"output", [], [Directive.computeRoot], 3, 4, 8, 0, 0, 4, 4⟩], [], []⟩
        ⟨32, 16384, 40⟩).1
      = ⟨[⟨"output", [], [Directive.computeRoot], 3, 4, 8, 0, 0, 4, 4⟩], [], []⟩
    ∧ ∃ t ∈ (⟨[⟨"output", [], [Directive.computeRoot], 3, 4, 8, 0, 0, 4, 4⟩], [], []⟩ :
          Pipeline).stages, t.manualSched ≠ []
        ∧ (auto_schedule_outputs
            ⟨[⟨"output", [], [Directive.computeRoot], 3, 4, 8, 0, 0, 4, 4⟩], [], []⟩
            ⟨32, 16384, 40⟩).2
          = some (SchedError.partiallyScheduledPipeline t.name) :=
  partial_schedule_error
    ⟨[⟨"output", [], [Directive.computeRoot], 3, 4, 8, 0, 0, 4, 4⟩], [], []⟩
    ⟨32, 16384, 40⟩
    ⟨⟨"output", [], [Directive.computeRoot], 3, 4, 8, 0, 0, 4, 4⟩, by decide, by decide⟩

theorem firstMissingDim_spec {es : List (Option (Int × Int))} {d : Nat}
    (h : firstMissingDim es = some d) : es.get? d = some none := by
  induction es generalizing d with
  | nil => simp [firstMissingDim] at h
  | cons e rest ih =>
    cases e with
    | none =>
      simp only [firstMissingDim, Option.some.injEq] at h
      subst h
      rfl
    | some v =>
      simp only [firstMissingDim, Option.map_eq_some'] at h
      obtain ⟨d', hd', rfl⟩ := h
      simpa using ih hd'

theorem firstMissingDim_isSome {es : List (Option (Int × Int))} {d : Nat}
    (h : es.get? d = some none) : (firstMissingDim es).isSome := by
  induction es generalizing d with
  | nil => simp at h
  | cons e rest ih =>
    cases e with
    | none => simp [firstMissingDim]
    | some v =>
      cases d with
      | zero => simp at h
      | succ d' =>
        have h2 : rest.get? d' = some none := by simpa using h
        have h3 := ih h2
        obtain ⟨d'', hd''⟩ := Option.isSome_iff_exists.mp h3
        simp [firstMissingDim, hd'']

theorem findMissingEstimate_spec {ps : List ParamDecl} {n : String} {d : Nat}
    (h : findMissingEstimate ps = some (n, d)) :
    ∃ r ∈ ps, r.name = n ∧ r.dimEstimates.get? d = some none := by
  induction ps with
  | nil => simp [findMissingEstimate] at h
  | cons p rest ih =>
    rcases hfm : firstMissingDim p.dimEstimates with _ | d'
    · rw [findMissingEstimate, hfm] at h
      obtain ⟨r, hr, hspec⟩ := ih h
      exact ⟨r, List.mem_cons_of_mem _ hr, hspec⟩
    · rw [findMissingEstimate, hfm] at h
      simp only [Option.some.injEq, Prod.mk.injEq] at h
      obtain ⟨rfl, rfl⟩ := h
      exact ⟨p, List.mem_cons_self _ _, rfl, firstMissingDim_spec hfm⟩

theorem findMissingEstimate_isSome {ps : List ParamDecl} {q : ParamDecl} {d : Nat}
    (hq : q ∈ ps) (h : q.dimEstimates.get? d = some none) :
    (findMissingEstimate ps).isSome := by
  induction ps with
  | nil => cases hq
  | cons p rest ih =>
    rcases hfm : firstMissingDim p.dimEstimates with _ | d'
    · rw [findMissingEstimate, hfm]
      rcases List.mem_cons.mp hq with rfl | hq'
      · have := firstMissingDim_isSome h
        rw [hfm] at this
        simp at this
      · exact ih hq'
    · rw [findMissingEstimate, hfm]
      rfl

/-- C6: if any Parameter or pipeline output lacks a required Estimate —
even a single omitted dimension — scheduling fails with
`MissingEstimateError`, and the parameter name and dimension index the
error carries identify a dimension that genuinely lacks an estimate. -/
theorem missing_estimate_error (p : Pipeline) (mp : MachineParams)
    (q : ParamDecl) (d : Nat)
    (hnoman : ∀ s ∈ p.stages, s.manualSched = [])
    (hq : q ∈ p.params) (hmiss : q.dimEstimates.get? d = some none) :
    ∃ n d', (auto_schedule_outputs p mp).2 = some (SchedError.missingEstimate n d')
      ∧ ∃ r ∈ p.params, r.name = n ∧ r.dimEstimates.get? d' = some none := by
  have hfind : p.stages.find? (fun s => !s.manualSched.isEmpty) = none := by
    rw [List.find?_eq_none]
    intro x hx
    simp [hnoman x hx]
  have hsome := findMissingEstimate_isSome hq hmiss
  obtain ⟨⟨n, d'⟩, hnd⟩ := Option.isSome_iff_exists.mp hsome
  refine ⟨n, d', ?_, findMissingEstimate_spec hnd⟩
  simp [auto_schedule_outputs, hfind, hnd]

/-- Witness for C6 at the lesson-21 setup with the estimate for
`output2`'s second dimension omitted: scheduling fails naming a genuinely
missing dimension. -/
theorem missing_estimate_error_witness :
    ∃ n d', (auto_schedule_outputs
        ⟨[], [⟨"input", [some (0, 1024), some (0, 1024), some (0, 3)]⟩,
              ⟨"factor", [some (2, 1)]⟩,
              ⟨"output1", [some (0, 1024), some (0, 1024)]⟩,
              ⟨"output2", [some (0, 1024), none]⟩], []⟩
        ⟨32, 16777216, 40⟩).2
      = some (SchedError.missingEstimate n d')
      ∧ ∃ r ∈ (⟨[], [⟨"input", [some (0, 1024), some (0, 1024), some (0, 3)]⟩,
              ⟨"factor", [some (2, 1)]⟩,
              ⟨"output1", [some (0, 1024), some (0, 1024)]⟩,
              ⟨"output2", [some (0, 1024), none]⟩], []⟩ : Pipeline).params,
          r.name = n ∧ r.dimEstimates.get? d' = some none :=
  missing_estimate_error
    ⟨[], [⟨"input", [some (0, 1024), some (0, 1024), some (0, 3)]⟩,
          ⟨"factor", [some (2, 1)]⟩,
          ⟨"output1", [some (0, 1024), some (0, 1024)]⟩,
          ⟨"output2", [some (0, 1024), none]⟩], []⟩
    ⟨32, 16777216, 40⟩
    ⟨"output2", [some (0, 1024), none]⟩ 1
    (by intro s hs; cases hs) (by decide) (by decide)

/-- C3: determinism.  For a fixed (graph, estimates, machine parameters)
triple, any two invocations of the scheduler produce bit-identical
results, and `required_region` on identical inputs returns identical
output: scheduling is a pure function of its inputs, with no search
randomness. -/
theorem scheduling_deterministic (p : Pipeline) (mp : MachineParams)
    (sites : List (List Int)) (out : Region)
    (r1 r2 : Pipeline × Option SchedError) (q1 q2 : Region)
    (h1 : r1 = auto_schedule_outputs p mp) (h2 : r2 = auto_schedule_outputs p mp)
    (h3 : q1 = required_region sites out) (h4 : q2 = required_region sites out) :
    r1 = r2 ∧ q1 = q2 := by
  subst h1
  subst h2
  subst h3
  subst h4
  exact ⟨rfl, rfl⟩

/-- Witness for C3: two runs on the blur pipeline with the lesson's
machine parameters, and two `required_region` queries for `blur_x` under
the estimated output region, are bit-identical. -/
theorem scheduling_deterministic_witness :
    auto_schedule_outputs ⟨blurGraph 1536 2560 4 32, [], []⟩ ⟨32, 16384, 40⟩
      = auto_schedule_outputs ⟨blurGraph 1536 2560 4 32, [], []⟩ ⟨32, 16384, 40⟩
    ∧ required_region [[0, 0], [0, 1], [0, 2]] [Iv.mk 0 1535, Iv.mk 0 2559]
      = required_region [[0, 0], [0, 1], [0, 2]] [Iv.mk 0 1535, Iv.mk 0 2559] :=
  scheduling_deterministic ⟨blurGraph 1536 2560 4 32, [], []⟩ ⟨32, 16384, 40⟩
    [[0, 0], [0, 1], [0, 2]] [Iv.mk 0 1535, Iv.mk 0 2559]
    _ _ _ _ rfl rfl rfl rfl

/-- Clamp `v` into `[lo, hi]`. -/
def clampI (v lo hi : Int) : Int := max lo (min v hi)

/-- `BoundaryConditions::repeat_edge(input, {{0, width}, {0, height}})`
from `SimpleBlur::generate`: clamps the first two coordinates into the
declared extents and passes the remaining (channel) coordinate through. -/
def repeat_edge (input : Int → Int → Int → ℚ) (width height : Int)
    (x y c : Int) : ℚ :=
  input (clampI x 0 (width - 1)) (clampI y 0 (height - 1)) c

/-- `blur_x(x, y, _) = (in(x, y, _) + in(x+1, y, _) + in(x+2, y, _)) / 3`
from `SimpleBlur::generate`. -/
def blur_x (input : Int → Int → Int → ℚ) (width height : Int)
    (x y c : Int) : ℚ :=
  (repeat_edge input width height x y c
    + repeat_edge input width height (x + 1) y c
    + repeat_edge input width height (x + 2) y c) / 3

/-- `output(x, y, _) = (blur_x(x, y, _) + blur_x(x, y+1, _) +
blur_x(x, y+2, _)) / 3` from `SimpleBlur::generate`. -/
def output (input : Int → Int → Int → ℚ) (width height : Int)
    (x y c : Int) : ℚ :=
  (blur_x input width height x y c
    + blur_x input width height x (y + 1) c
    + blur_x input width height x (y + 2) c) / 3

/-- The `blur_x` values materialized for one output row tile: rows
`[tileLo, tileLo + f + 1]` (the tile's `f` rows plus the 2-row stencil
halo, the tile's `required_region`); reads outside the materialized
window see an arbitrary value (0). -/
def blurTileBuf (input : Int → Int → Int → ℚ) (width height : Int)
    (f tileLo : Int) (bx biy bc : Int) : ℚ :=
  if tileLo ≤ biy ∧ biy ≤ tileLo + f + 1 then blur_x input width height bx biy bc
  else 0

/-- Modelled from the spec: executing the blur pipeline under the
Schedule chosen from the supplied estimates.  The output's `y` loop is
split by the schedule's split factor `f`; for the row tile containing
`y` (starting at `y / f * f`), `blur_x` is materialized over exactly
that tile's required region, and the output point reads the materialized
buffer. -/
def scheduledBlurOutput (estW estH estC : Nat) (mp : MachineParams)
    (input : Int → Int → Int → ℚ) (width height : Int) (x y c : Int) : ℚ :=
  let f : Int := (autoScheduleBlur estW estH estC mp).splitFactor
  (blurTileBuf input width height f (y / f * f) x y c
    + blurTileBuf input width height f (y / f * f) x (y + 1) c
    + blurTileBuf input width height f (y / f * f) x (y + 2) c) / 3

/-- Executing under the chosen schedule computes exactly the pipeline's
defining function: every read the output performs falls inside the
materialized tile window (region soundness in action), so tiling changes
only the evaluation order and materialization, never values. -/
theorem scheduledBlurOutput_eq (estW estH estC : Nat) (mp : MachineParams)
    (input : Int → Int → Int → ℚ) (width height : Int) (x y c : Int) :
    scheduledBlurOutput estW estH estC mp input width height x y c
      = output input width height x y c := by
  have hfpos : 0 < pickTileFactor estW estH estC mp :=
    pickTileFactor_pos estW estH estC mp
  simp only [scheduledBlurOutput]
  set F : Int := ((autoScheduleBlur estW estH estC mp).splitFactor : Int) with hF
  have hFpos : (0 : Int) < F := by
    rw [hF]
    exact_mod_cast hfpos
  have hm0 : 0 ≤ y % F := Int.emod_nonneg y (ne_of_gt hFpos)
  have hm1 : y % F < F := Int.emod_lt_of_pos y hFpos
  have hdm : F * (y / F) + y % F = y := Int.ediv_add_emod y F
  have hcomm : y / F * F = F * (y / F) := mul_comm _ _
  have hlo : y / F * F = y - y % F := by linarith
  simp only [blurTileBuf]
  rw [if_pos ⟨by linarith, by linarith⟩, if_pos ⟨by linarith, by linarith⟩,
    if_pos ⟨by linarith, by linarith⟩]
  rfl

/-- C7: estimates are noninterfering with output values.  For every input
image and every output coordinate, two scheduled executions of the blur
pipeline that differ only in the supplied bounds estimates (and hence
possibly in the Schedule chosen from them) compute identical output
values: estimates influence only which schedule is chosen, never the
computed result. -/
theorem estimates_noninterference
    (estW1 estH1 estC1 estW2 estH2 estC2 : Nat) (mp : MachineParams)
    (input : Int → Int → Int → ℚ) (width height : Int) (x y c : Int) :
    scheduledBlurOutput estW1 estH1 estC1 mp input width height x y c
      = scheduledBlurOutput estW2 estH2 estC2 mp input width height x y c := by
  rw [scheduledBlurOutput_eq, scheduledBlurOutput_eq]

/-- `BoundaryConditions::repeat_edge(input)` from
`AutoScheduled::generate`: clamps all three coordinates of the 3-D input
buffer into its bounds. -/
def in_b (input : Int → Int → Int → ℚ) (w h ch : Int) (x y c : Int) : ℚ :=
  input (clampI x 0 (w - 1)) (clampI y 0 (h - 1)) (clampI c 0 (ch - 1))

/-- `gray(x, y) = 0.299f*in_b(x,y,0) + 0.587f*in_b(x,y,1) +
0.114f*in_b(x,y,2)`. -/
def gray (input : Int → Int → Int → ℚ) (w h ch : Int) (x y : Int) : ℚ :=
  (299 / 1000 : ℚ) * in_b input w h ch x y 0
    + (587 / 1000 : ℚ) * in_b input w h ch x y 1
    + (114 / 1000 : ℚ) * in_b input w h ch x y 2

/-- `Iy` from `AutoScheduled::generate`. -/
def Iy (input : Int → Int → Int → ℚ) (w h ch : Int) (x y : Int) : ℚ :=
  gray input w h ch (x - 1) (y - 1) * (-1 / 12 : ℚ)
    + gray input w h ch (x - 1) (y + 1) * (1 / 12 : ℚ)
    + gray input w h ch x (y - 1) * (-2 / 12 : ℚ)
    + gray input w h ch x (y + 1) * (2 / 12 : ℚ)
    + gray input w h ch (x + 1) (y - 1) * (-1 / 12 : ℚ)
    + gray input w h ch (x + 1) (y + 1) * (1 / 12 : ℚ)

/-- `Ix` from `AutoScheduled::generate`. -/
def Ix (input : Int → Int → Int → ℚ) (w h ch : Int) (x y : Int) : ℚ :=
  gray input w h ch (x - 1) (y - 1) * (-1 / 12 : ℚ)
    + gray input w h ch (x + 1) (y - 1) * (1 / 12 : ℚ)
    + gray input w h ch (x - 1) y * (-2 / 12 : ℚ)
    + gray input w h ch (x + 1) y * (2 / 12 : ℚ)
    + gray input w h ch (x - 1) (y + 1) * (-1 / 12 : ℚ)
    + gray input w h ch (x + 1) (y + 1) * (1 / 12 : ℚ)

/-- `Ixx(x, y) = Ix(x, y) * Ix(x, y)`. -/
def Ixx (input : Int → Int → Int → ℚ) (w h ch : Int) (x y : Int) : ℚ :=
  Ix input w h ch x y * Ix input w h ch x y

/-- `Iyy(x, y) = Iy(x, y) * Iy(x, y)`. -/
def Iyy (input : Int → Int → Int → ℚ) (w h ch : Int) (x y : Int) : ℚ :=
  Iy input w h ch x y * Iy input w h ch x y

/-- `Ixy(x, y) = Ix(x, y) * Iy(x, y)`. -/
def Ixy (input : Int → Int → Int → ℚ) (w h ch : Int) (x y : Int) : ℚ :=
  Ix input w h ch x y * Iy input w h ch x y

/-- `sum3x3(f, x, y)`: the 3×3 box sum helper of `AutoScheduled`. -/
def sum3x3 (f : Int → Int → ℚ) (x y : Int) : ℚ :=
  f (x - 1) (y - 1) + f (x - 1) y + f (x - 1) (y + 1)
    + f x (y - 1) + f x y + f x (y + 1)
    + f (x + 1) (y - 1) + f (x + 1) y + f (x + 1) (y + 1)

/-- `Sxx(x, y) = sum3x3(Ixx, x, y)`. -/
def Sxx (input : Int → Int → Int → ℚ) (w h ch : Int) (x y : Int) : ℚ :=
  sum3x3 (Ixx input w h ch) x y

/-- `Syy(x, y) = sum3x3(Iyy, x, y)`. -/
def Syy (input : Int → Int → Int → ℚ) (w h ch : Int) (x y : Int) : ℚ :=
  sum3x3 (Iyy input w h ch) x y

/-- `Sxy(x, y) = sum3x3(Ixy, x, y)`. -/
def Sxy (input : Int → Int → Int → ℚ) (w h ch : Int) (x y : Int) : ℚ :=
  sum3x3 (Ixy input w h ch) x y

/-- `det(x, y) = Sxx(x, y)*Syy(x, y) - Sxy(x, y)*Sxy(x, y)`. -/
def det (input : Int → Int → Int → ℚ) (w h ch : Int) (x y : Int) : ℚ :=
  Sxx input w h ch x y * Syy input w h ch x y
    - Sxy input w h ch x y * Sxy input w h ch x y

/-- `trace(x, y) = Sxx(x, y) + Syy(x, y)`. -/
def trace (input : Int → Int → Int → ℚ) (w h ch : Int) (x y : Int) : ℚ :=
  Sxx input w h ch x y + Syy input w h ch x y

/-- `harris(x, y) = det(x, y) - 0.04f*trace(x, y)*trace(x, y)`. -/
def harris (input : Int → Int → Int → ℚ) (w h ch : Int) (x y : Int) : ℚ :=
  det input w h ch x y
    - (4 / 100 : ℚ) * trace input w h ch x y * trace input w h ch x y

/-- `output1(x, y) = harris(x + 2, y + 2)`. -/
def output1 (input : Int → Int → Int → ℚ) (w h ch : Int) (x y : Int) : ℚ :=
  harris input w h ch (x + 2) (y + 2)

/-- `output2(x, y) = factor * harris(x + 2, y + 2)`. -/
def output2 (input : Int → Int → Int → ℚ) (w h ch : Int) (factor : ℚ)
    (x y : Int) : ℚ :=
  factor * harris input w h ch (x + 2) (y + 2)

/-- C9: in the AutoScheduled (Harris corner detection) generator, for
every input image, bounds, factor value and coordinate, `output2(x, y)`
equals `factor` times `output1(x, y)`: both sample `harris(x+2, y+2)`
and `output2` merely scales that sample by the scalar parameter. -/
theorem output2_eq_factor_mul_output1 (input : Int → Int → Int → ℚ)
    (w h ch : Int) (factor : ℚ) (x y : Int) :
    output2 input w h ch factor x y = factor * output1 input w h ch x y := rfl

/-- The schedule-relevant state of the SimpleBlur generator: the recorded
bounds estimates for `input`, `width`, `height` and `output`, the
scheduling directives applied to `output` and `blur_x`, and whether
`auto_schedule_outputs` was invoked. -/
structure SimpleBlurState where
  inputEstimates : List (Int × Int)
  widthEstimate : Option Int
  heightEstimate : Option Int
  outputEstimates : List (Int × Int)
  outputDirectives : List Directive
  blurXDirectives : List Directive
  autoScheduled : Bool
  deriving Repr, DecidableEq

/-- The per-dimension (min, extent) estimates `SimpleBlur::schedule`
records for an `n`-dimensional Func: `(0, W)` and `(0, H)` for the first
two dimensions and `(0, C)` for each remaining one, with
`W = 1536, H = 2560, C = 4`. -/
def simpleBlurEstimates (n : Nat) : List (Int × Int) :=
  [(0, 1536), (0, 2560)] ++ List.replicate (n - 2) (0, 4)

/-- `SimpleBlur::schedule` embedded from the source: if `auto_schedule`
or `estimate_only` is set, record the estimates on `input`, `width`,
`height` and `output`, and invoke the auto-scheduler only when
`auto_schedule` is set; otherwise apply the manual
split/parallel/vectorize/store_at/compute_at schedule. -/
def SimpleBlur_schedule (auto_schedule estimate_only : Bool)
    (inputDims outputDims : Nat) (s : SimpleBlurState) : SimpleBlurState :=
  if auto_schedule || estimate_only then
    let s1 := { s with
      inputEstimates := simpleBlurEstimates inputDims
      widthEstimate := some 1536
      heightEstimate := some 2560
      outputEstimates := simpleBlurEstimates outputDims }
    if auto_schedule then { s1 with autoScheduled := true } else s1
  else
    { s with
      outputDirectives := s.outputDirectives ++
        [Directive.split "y" "y" "yi" 8, Directive.parallelDim "y",
          Directive.vectorizeDim "x" 8]
      blurXDirectives := s.blurXDirectives ++
        [Directive.storeAt "output" "y", Directive.computeAt "output" "yi",
          Directive.vectorizeDim "x" 8] }

/-- C10: running `SimpleBlur::schedule` with `estimate_only = true` and
`auto_schedule = false` records the bounds estimates for `input`,
`width`, `height` and `output` but applies no scheduling directive at
all: the auto-scheduler is not invoked, the manual schedule branch is
skipped, and both Funcs' directive state is exactly what it was on
entry (its default). -/
theorem estimate_only_records_estimates_only (inputDims outputDims : Nat)
    (s : SimpleBlurState) :
    (SimpleBlur_schedule false true inputDims outputDims s).inputEstimates
        = simpleBlurEstimates inputDims
    ∧ (SimpleBlur_schedule false true inputDims outputDims s).widthEstimate
        = some 1536
    ∧ (SimpleBlur_schedule false true inputDims outputDims s).heightEstimate
        = some 2560
    ∧ (SimpleBlur_schedule false true inputDims outputDims s).outputEstimates
        = simpleBlurEstimates outputDims
    ∧ (SimpleBlur_schedule false true inputDims outputDims s).outputDirectives
        = s.outputDirectives
    ∧ (SimpleBlur_schedule false true inputDims outputDims s).blurXDirectives
        = s.blurXDirectives
    ∧ (SimpleBlur_schedule false true inputDims outputDims s).autoScheduled
        = s.autoScheduled := by
  simp [SimpleBlur_schedule]

end Halide
